import Mathlib

/-!
Shallow embedding of `src/interpolator.py` (class `AudioInterpolator`) from the
AudioUpscaler repository, together with theorems settling the specification
claims about it.

Modelling choices, each justified against the Python source:

* Samples are `numpy.float64` in the source.  The claims under study are
  structural (data movement, lengths, indices, state evolution), not about the
  numerical values a spline produces, so the sample type is an arbitrary type
  `α` with a zero (`np.zeros` initialisation); concrete instances use `ℤ`.
* The three scipy interpolator classes (`CubicSpline`, `Akima1DInterpolator`,
  `PchipInterpolator`) are external library code, not part of this repository.
  Since `x_points` is always the fixed ascending grid `[1..9, 13, 17]` and
  `x_new` is always `[10, 11, 12]`, a constructed-then-evaluated interpolator
  is, as used here, a pure deterministic function of the 11 `y_points` values
  returning the 3 values at positions 10, 11, 12.  We model each as an opaque
  function `List α → α × α × α` packaged in `SplineLib`.
* A stereo frame (one row of the `(k, 2)` numpy arrays) is `α × α`; a channel
  index is `Fin 2` (`self.channels = 2`).
* `interpolate_chunk` receives its input already reshaped into frames
  (`input_chunk.reshape(-1, 2)`), and the returned flat `output.flatten()` of
  the `(4n, 2)` row-major array is the left/right interleaving of the two
  per-channel columns.
* Python exceptions (`raise ValueError`) become `Except String`.  The raise
  can only fire at the very first processed pair (the method string is fixed),
  before any state mutation, so returning the un-mutated state on error is
  faithful to the in-place Python object.
-/

namespace AudioUpscaler

/-- Channel read: column `c` of a stereo frame, `frame[·, channel]`. -/
def getChannel {α : Type} (c : Fin 2) (f : α × α) : α :=
  if c = 0 then f.1 else f.2

/-- Channel write: replace column `c` of a stereo frame. -/
def setChannel {α : Type} (c : Fin 2) (v : α) (f : α × α) : α × α :=
  if c = 0 then (v, f.2) else (f.1, v)

/-- The scipy spline constructors, used only via
`Interpolator(x_points, y_points)([10, 11, 12])` with the fixed grid
`x_points = [1..9, 13, 17]`: each is modelled as an opaque deterministic
function from the 11 node values to the 3 generated values. -/
structure SplineLib (α : Type) where
  cubicSpline : List α → α × α × α
  akima1DInterpolator : List α → α × α × α
  pchipInterpolator : List α → α × α × α

/-- The mutable state of the Python `AudioInterpolator` object:
`self.previous_samples` (a `(9, 2)` float array), `self.chunk_end_sample`
(a `(1, 2)` float array, stored as one frame) and `self.method`.
`self.channels` is the constant 2, carried by the frame type. -/
structure AudioInterpolator (α : Type) where
  previous_samples : List (α × α)
  chunk_end_sample : α × α
  method : String
deriving DecidableEq

/-- `AudioInterpolator.__init__`: zero history, zero carry, stored method
string; no validation of the method is performed at construction. -/
def AudioInterpolator.init {α : Type} [Zero α] (method : String) :
    AudioInterpolator α :=
  ⟨List.replicate 9 (0, 0), (0, 0), method⟩

/-- `reset()`: zero-fills `previous_samples` only. -/
def AudioInterpolator.reset {α : Type} [Zero α] (s : AudioInterpolator α) :
    AudioInterpolator α :=
  { s with previous_samples := List.replicate 9 (0, 0) }

/-- `np.roll(a, -4, axis=0)` on the 9-row array: row `i` of the result is row
`(i + 4) mod 9` of the input, i.e. the last 5 rows followed by the first 4.
Note this moves BOTH channel columns. -/
def rollNeg4 {α : Type} (xs : List (α × α)) : List (α × α) :=
  xs.drop 4 ++ xs.take 4

/-- `a[-4:, channel] = vs`: overwrite channel `c` of the last `vs.length`
rows (always the last 4 here), leaving the other channel untouched. -/
def writeLast4 {α : Type} (c : Fin 2) (vs : List α) (xs : List (α × α)) :
    List (α × α) :=
  xs.take (xs.length - vs.length) ++
    List.zipWith (fun f v => setChannel c v f) (xs.drop (xs.length - vs.length)) vs

/-- The body of the inner loop `for i in range(len(input_samples) - 1)` for one
channel `c` and one consecutive pair `(si, si1)`: produce the 4-sample output
block for this pair and the updated `previous_samples` array.  Mirrors lines
45–95 of `interpolator.py`: the `repeat` short-circuit, the 11-value
`y_points` assembly, the method dispatch with its `ValueError`, the emission
`[v10, v11, v12, si]`, and the `np.roll` + last-4 write. -/
def pairStep {α : Type} (lib : SplineLib α) (method : String) (c : Fin 2)
    (prev : List (α × α)) (si si1 : α × α) :
    Except String (List α × List (α × α)) :=
  if method = "repeat" then
    let v := getChannel c si
    Except.ok ([v, v, v, v], writeLast4 c [v, v, v, v] (rollNeg4 prev))
  else
    let y_points := prev.map (getChannel c) ++ [getChannel c si, getChannel c si1]
    let emit : α × α × α → Except String (List α × List (α × α)) := fun t =>
      Except.ok ([t.1, t.2.1, t.2.2, getChannel c si],
        writeLast4 c [t.1, t.2.1, t.2.2, getChannel c si] (rollNeg4 prev))
    if method = "cubic" then emit (lib.cubicSpline y_points)
    else if method = "akima" then emit (lib.akima1DInterpolator y_points)
    else if method = "pchip" then emit (lib.pchipInterpolator y_points)
    else Except.error ("Unknown interpolation method: " ++ method)

/-- The full inner loop for one channel: fold `pairStep` over the consecutive
pairs, concatenating the per-pair 4-sample blocks into this channel's output
column and threading `previous_samples` through. -/
def channelLoop {α : Type} (lib : SplineLib α) (method : String) (c : Fin 2) :
    List ((α × α) × (α × α)) → List (α × α) →
    Except String (List α × List (α × α))
  | [], prev => Except.ok ([], prev)
  | (si, si1) :: rest, prev =>
    match pairStep lib method c prev si si1 with
    | Except.error e => Except.error e
    | Except.ok (block, prev1) =>
      match channelLoop lib method c rest prev1 with
      | Except.error e => Except.error e
      | Except.ok (col, prev2) => Except.ok (block ++ col, prev2)

/-- Row-major flattening of the `(m, 2)` output array from its two equal-length
channel columns: `output.flatten()`. -/
def interleave {α : Type} : List α → List α → List α
  | a :: as, b :: bs => a :: b :: interleave as bs
  | _, _ => []

/-- `interpolate_chunk(self, input_chunk)`, lines 17–99 of `interpolator.py`.
Empty input returns an empty array without touching any state.  Otherwise the
working sequence `input_samples = [chunk_end_sample] ++ frames` is formed, the
channel-0 loop runs over all consecutive pairs (mutating `previous_samples`,
both columns, as it goes), then the channel-1 loop runs on the resulting
array, `chunk_end_sample` becomes the last working frame, and the `(4n, 2)`
output is flattened.  Errors propagate as the Python exception would. -/
def interpolate_chunk {α : Type} [Zero α] (lib : SplineLib α)
    (s : AudioInterpolator α) (input_chunk : List (α × α)) :
    Except String (List α × AudioInterpolator α) :=
  match input_chunk with
  | [] => Except.ok ([], s)
  | f :: fs =>
    let input_samples := s.chunk_end_sample :: f :: fs
    let pairs := input_samples.zip input_samples.tail
    match channelLoop lib s.method 0 pairs s.previous_samples with
    | Except.error e => Except.error e
    | Except.ok (col0, prev1) =>
      match channelLoop lib s.method 1 pairs prev1 with
      | Except.error e => Except.error e
      | Except.ok (col1, prev2) =>
        Except.ok (interleave col0 col1,
          { s with previous_samples := prev2,
                   chunk_end_sample := (f :: fs).getLast (List.cons_ne_nil f fs) })

/-- The streaming driver loop of `audio_upscaler.py`: feed a list of chunks to
one engine in order and concatenate the outputs. -/
def runChunks {α : Type} [Zero α] (lib : SplineLib α) (s : AudioInterpolator α) :
    List (List (α × α)) → Except String (List α × AudioInterpolator α)
  | [] => Except.ok ([], s)
  | chunk :: chunks =>
    match interpolate_chunk lib s chunk with
    | Except.error e => Except.error e
    | Except.ok (out, s1) =>
      match runChunks lib s1 chunks with
      | Except.error e => Except.error e
      | Except.ok (outs, s2) => Except.ok (out ++ outs, s2)

/-- The four method selectors dispatched by the source. -/
def recognizedMethods : List String := ["cubic", "akima", "pchip", "repeat"]

/-- Extract channel `c` from an interleaved stereo stream. -/
def deinterleave {α : Type} (c : Fin 2) : List α → List α
  | a :: b :: rest => (if c = 0 then a else b) :: deinterleave c rest
  | _ => []

/-- Output component of a result, empty list on error. -/
def outputOf {α : Type} [Zero α] (r : Except String (List α × AudioInterpolator α)) :
    List α :=
  match r with
  | Except.ok (out, _) => out
  | Except.error _ => []

/-- State component of a result, a fresh dummy engine on error. -/
def stateOf {α : Type} [Zero α] (r : Except String (List α × AudioInterpolator α)) :
    AudioInterpolator α :=
  match r with
  | Except.ok (_, s) => s
  | Except.error _ => AudioInterpolator.init ""

/-- The last `n` elements of a list. -/
def lastN {α : Type} (n : Nat) (xs : List α) : List α :=
  xs.drop (xs.length - n)

/-- The output column the `repeat` method produces for channel `c` from a
working sequence: each frame except the last, repeated 4 times. -/
def holdColumn {α : Type} (c : Fin 2) (working : List (α × α)) : List α :=
  (working.dropLast.map (fun f => List.replicate 4 (getChannel c f))).flatten

/-- A concrete instantiation of the opaque scipy evaluators over `ℤ`, used for
concrete evaluations: each method returns the node values at indices 10, 5
and 0 of `y_points` (the later input sample and two history slots), so its
output registers both the input pair and the history window contents. -/
def probeLib : SplineLib ℤ :=
  { cubicSpline := fun y => (y.getD 10 0, y.getD 5 0, y.getD 0 0)
    akima1DInterpolator := fun y => (y.getD 10 0, y.getD 5 0, y.getD 0 0)
    pchipInterpolator := fun y => (y.getD 10 0, y.getD 5 0, y.getD 0 0) }

/-- A 6-frame stereo input stream with distinct values in every slot. -/
def sixFrames : List (ℤ × ℤ) :=
  [(1, 10), (2, 20), (3, 30), (4, 40), (5, 50), (6, 60)]

/-- The per-channel `previous_samples` evolution the `repeat` method performs
over a pair list (the state part of `channelLoop` for that method). -/
def repeatAdvance {α : Type} (c : Fin 2) :
    List ((α × α) × (α × α)) → List (α × α) → List (α × α)
  | [], prev => prev
  | (si, _) :: rest, prev =>
    repeatAdvance c rest
      (writeLast4 c (List.replicate 4 (getChannel c si)) (rollNeg4 prev))

/-! ### Helper lemmas -/

theorem fin2_cases (c : Fin 2) : c = 0 ∨ c = 1 := by
  rcases c with ⟨cv, hcv⟩
  rcases cv with _ | _ | cv
  · exact Or.inl rfl
  · exact Or.inr rfl
  · omega

theorem zipTail_map_fst {α : Type} (xs : List α) :
    (xs.zip xs.tail).map Prod.fst = xs.dropLast := by
  induction xs with
  | nil => rfl
  | cons a tl ih =>
    cases tl with
    | nil => rfl
    | cons b t =>
      simp only [List.tail_cons, List.zip_cons_cons, List.map_cons,
        List.dropLast_cons₂]
      simpa using ih

theorem zip_getElem?_fst {α β : Type} (xs : List α) (ys : List β) (k : Nat)
    (h1 : k < xs.length) (h2 : k < ys.length) :
    ((xs.zip ys)[k]?).map Prod.fst = xs[k]? := by
  have hk : k < (xs.zip ys).length := by
    rw [List.length_zip]; omega
  rw [List.getElem?_eq_getElem hk, List.getElem?_eq_getElem h1]
  simp [List.getElem_zip]

theorem interleave_length {α : Type} (xs ys : List α)
    (h : xs.length = ys.length) :
    (interleave xs ys).length = xs.length + ys.length := by
  induction xs generalizing ys with
  | nil =>
    cases ys with
    | nil => rfl
    | cons b bs => simp at h
  | cons a as ih =>
    cases ys with
    | nil => simp at h
    | cons b bs =>
      have := ih bs (by simpa using h)
      simp only [interleave, List.length_cons]
      omega

theorem deinterleave_interleave_left {α : Type} (xs ys : List α)
    (h : xs.length = ys.length) :
    deinterleave 0 (interleave xs ys) = xs := by
  induction xs generalizing ys with
  | nil =>
    cases ys with
    | nil => rfl
    | cons b bs => simp at h
  | cons a as ih =>
    cases ys with
    | nil => simp at h
    | cons b bs =>
      have hih := ih bs (by simpa using h)
      simp [interleave, deinterleave, hih]

theorem deinterleave_interleave_right {α : Type} (xs ys : List α)
    (h : xs.length = ys.length) :
    deinterleave 1 (interleave xs ys) = ys := by
  induction xs generalizing ys with
  | nil =>
    cases ys with
    | nil => rfl
    | cons b bs => simp at h
  | cons a as ih =>
    cases ys with
    | nil => simp at h
    | cons b bs =>
      have hih := ih bs (by simpa using h)
      simp [interleave, deinterleave, hih,
        if_neg (by decide : ¬(1 : Fin 2) = 0)]

theorem pairStep_ok {α : Type} (lib : SplineLib α) {method : String}
    (hm : method ∈ recognizedMethods) (c : Fin 2) (prev : List (α × α))
    (si si1 : α × α) :
    ∃ block prev1, pairStep lib method c prev si si1 = Except.ok (block, prev1)
      ∧ block.length = 4 ∧ block[3]? = some (getChannel c si) := by
  simp only [recognizedMethods, List.mem_cons, List.not_mem_nil, or_false] at hm
  rcases hm with h | h | h | h
  all_goals subst h
  · exact ⟨_, _, rfl, rfl, rfl⟩
  · exact ⟨_, _, rfl, rfl, rfl⟩
  · exact ⟨_, _, rfl, rfl, rfl⟩
  · exact ⟨_, _, rfl, rfl, rfl⟩

theorem pairStep_error {α : Type} (lib : SplineLib α) {method : String}
    (hm : method ∉ recognizedMethods) (c : Fin 2) (prev : List (α × α))
    (si si1 : α × α) :
    pairStep lib method c prev si si1
      = Except.error ("Unknown interpolation method: " ++ method) := by
  simp only [recognizedMethods, List.mem_cons, List.not_mem_nil, or_false,
    not_or] at hm
  obtain ⟨h1, h2, h3, h4⟩ := hm
  simp [pairStep, h1, h2, h3, h4]

theorem channelLoop_spec {α : Type} (lib : SplineLib α) {method : String}
    (hm : method ∈ recognizedMethods) (c : Fin 2)
    (pairs : List ((α × α) × (α × α))) (prev : List (α × α)) :
    ∃ col prev1, channelLoop lib method c pairs prev = Except.ok (col, prev1)
      ∧ col.length = 4 * pairs.length
      ∧ ∀ k : Nat, col[4 * k + 3]?
          = (pairs[k]?).map (fun p => getChannel c p.1) := by
  induction pairs generalizing prev with
  | nil => exact ⟨[], prev, rfl, rfl, fun k => by simp⟩
  | cons p rest ih =>
    obtain ⟨si, si1⟩ := p
    obtain ⟨block, prevA, hstep, hlen, hget⟩ := pairStep_ok lib hm c prev si si1
    obtain ⟨col, prev1, hloop, hclen, hcget⟩ := ih prevA
    refine ⟨block ++ col, prev1, ?_, ?_, ?_⟩
    · simp [channelLoop, hstep, hloop]
    · simp only [List.length_append, hlen, hclen, List.length_cons]
      ring
    · intro k
      cases k with
      | zero =>
        rw [List.getElem?_append, if_pos (by omega)]
        simpa using hget
      | succ k =>
        rw [List.getElem?_append_right (by omega)]
        have h4 : 4 * (k + 1) + 3 - block.length = 4 * k + 3 := by omega
        rw [h4, hcget]
        simp

theorem channelLoop_error {α : Type} (lib : SplineLib α) {method : String}
    (hm : method ∉ recognizedMethods) (c : Fin 2)
    (p : (α × α) × (α × α)) (rest : List ((α × α) × (α × α)))
    (prev : List (α × α)) :
    channelLoop lib method c (p :: rest) prev
      = Except.error ("Unknown interpolation method: " ++ method) := by
  obtain ⟨si, si1⟩ := p
  simp [channelLoop, pairStep_error lib hm]

theorem pairStep_repeat {α : Type} (lib : SplineLib α) (c : Fin 2)
    (prev : List (α × α)) (si si1 : α × α) :
    pairStep lib "repeat" c prev si si1
      = Except.ok (List.replicate 4 (getChannel c si),
          writeLast4 c (List.replicate 4 (getChannel c si)) (rollNeg4 prev)) := rfl

theorem channelLoop_repeat {α : Type} (lib : SplineLib α) (c : Fin 2)
    (pairs : List ((α × α) × (α × α))) (prev : List (α × α)) :
    channelLoop lib "repeat" c pairs prev
      = Except.ok
          ((pairs.map (fun p => List.replicate 4 (getChannel c p.1))).flatten,
            repeatAdvance c pairs prev) := by
  induction pairs generalizing prev with
  | nil => rfl
  | cons p rest ih =>
    obtain ⟨si, si1⟩ := p
    simp [channelLoop, pairStep_repeat, ih, repeatAdvance]

theorem holdColumn_eq {α : Type} (c : Fin 2) (x : α × α) (xs : List (α × α)) :
    (((x :: xs).zip xs).map (fun p => List.replicate 4 (getChannel c p.1))).flatten
      = holdColumn c (x :: xs) := by
  have hz := zipTail_map_fst (x :: xs)
  simp only [List.tail_cons] at hz
  unfold holdColumn
  rw [← hz, List.map_map]
  rfl

theorem interpolate_chunk_spec {α : Type} [Zero α] (lib : SplineLib α)
    (s : AudioInterpolator α) (chunk : List (α × α))
    (hm : s.method ∈ recognizedMethods) :
    ∃ out s1, interpolate_chunk lib s chunk = Except.ok (out, s1)
      ∧ out.length = 8 * chunk.length
      ∧ (∀ c : Fin 2, (deinterleave c out).length = 4 * chunk.length)
      ∧ ∀ (c : Fin 2) (k : Nat),
          (deinterleave c out)[4 * k + 3]?
            = (((s.chunk_end_sample :: chunk).zip chunk)[k]?).map
                (fun p => getChannel c p.1) := by
  cases chunk with
  | nil =>
    refine ⟨[], s, rfl, rfl, fun c => rfl, fun c k => ?_⟩
    simp [deinterleave]
  | cons f fs =>
    obtain ⟨col0, prevA, h0, hl0, hg0⟩ :=
      channelLoop_spec lib hm 0
        ((s.chunk_end_sample :: f :: fs).zip (f :: fs)) s.previous_samples
    obtain ⟨col1, prevB, h1, hl1, hg1⟩ :=
      channelLoop_spec lib hm 1
        ((s.chunk_end_sample :: f :: fs).zip (f :: fs)) prevA
    have hplen : ((s.chunk_end_sample :: f :: fs).zip (f :: fs)).length
        = (f :: fs).length := by
      rw [List.length_zip]; simp
    have hcols : col0.length = col1.length := by rw [hl0, hl1]
    have hd0 : deinterleave 0 (interleave col0 col1) = col0 :=
      deinterleave_interleave_left col0 col1 hcols
    have hd1 : deinterleave 1 (interleave col0 col1) = col1 :=
      deinterleave_interleave_right col0 col1 hcols
    refine ⟨interleave col0 col1,
      { s with previous_samples := prevB,
               chunk_end_sample := (f :: fs).getLast (List.cons_ne_nil f fs) },
      ?_, ?_, ?_, ?_⟩
    · simp only [interpolate_chunk, List.tail_cons, h0, h1]
    · rw [interleave_length col0 col1 hcols, hl0, hl1, hplen]
      ring
    · intro c
      rcases fin2_cases c with hc | hc <;> subst hc
      · rw [hd0, hl0, hplen]
      · rw [hd1, hl1, hplen]
    · intro c k
      rcases fin2_cases c with hc | hc <;> subst hc
      · rw [hd0]; exact hg0 k
      · rw [hd1]; exact hg1 k

theorem interpolate_chunk_ok_state {α : Type} [Zero α] {lib : SplineLib α}
    {s : AudioInterpolator α} {f : α × α} {fs : List (α × α)} {out : List α}
    {s1 : AudioInterpolator α}
    (h : interpolate_chunk lib s (f :: fs) = Except.ok (out, s1)) :
    s1.chunk_end_sample = (f :: fs).getLast (List.cons_ne_nil f fs)
      ∧ s1.method = s.method := by
  simp only [interpolate_chunk, List.tail_cons] at h
  split at h
  next => simp at h
  next col0 prev1 heq =>
    split at h
    next => simp at h
    next col1 prev2 heq2 =>
      simp only [Except.ok.injEq, Prod.mk.injEq] at h
      obtain ⟨ho, hs⟩ := h
      rw [← hs]
      exact ⟨rfl, rfl⟩

/-! ### Claim theorems -/

/-- **C1** (code defect evidence).  Chunk-boundary transparency fails on the
code: with the opaque spline evaluators instantiated by the concrete probe
functions `probeLib`, the 6-frame stereo stream `sixFrames` fed to a fresh
`"cubic"` engine as six 1-frame chunks produces a different output sequence
than the same stream fed as one 6-frame chunk.  The cause is
`np.roll(self.previous_samples, -4, axis=0)` (line 87) rolling BOTH channel
columns inside each single channel's pair loop, so the history window contents
— and hence the `y_points` node values handed to the spline — depend on how
the stream is partitioned into chunks. -/
theorem chunk_transparency_violation :
    outputOf (runChunks probeLib (AudioInterpolator.init "cubic")
        (sixFrames.map (fun f => [f])))
      ≠ outputOf (runChunks probeLib (AudioInterpolator.init "cubic")
          [sixFrames]) := by decide

/-- **C2** (code defect evidence).  The HistoryWindow invariant fails on the
code: after a fresh `"repeat"` engine processes the single chunk
`[(1, 10), (2, 20)]`, the channel-0 column of `previous_samples` is
`[1, 0, 0, 0, 0, 0, 1, 1, 1]` — a cyclic permutation produced by the
channel-1 loop's `np.roll` acting on both columns — whereas the 9 most
recently emitted channel-0 samples, oldest to newest (zero start-up history
followed by the emitted column `[0, 0, 0, 0, 1, 1, 1, 1]`), are
`[0, 0, 0, 0, 0, 1, 1, 1, 1]`. -/
theorem history_window_violation :
    ((stateOf (interpolate_chunk probeLib (AudioInterpolator.init "repeat")
        [((1 : ℤ), 10), (2, 20)])).previous_samples).map Prod.fst
      ≠ lastN 9 (List.replicate 9 (0 : ℤ) ++
          deinterleave 0 (outputOf (interpolate_chunk probeLib
            (AudioInterpolator.init "repeat") [((1 : ℤ), 10), (2, 20)]))) := by
  decide

/-- **C3** counterexample.  The claim places original input sample `k` at
per-channel output index `4*k + 3`.  On a fresh `"repeat"` engine processing
the one-frame chunk `[(5, 6)]`, channel 0's output is `[0, 0, 0, 0]`: index
`4*0 + 3` holds `0` (the zero carry frame), not the input sample `5`. -/
theorem pass_through_index_cex :
    (deinterleave 0 (outputOf (interpolate_chunk probeLib
        (AudioInterpolator.init "repeat") [((5 : ℤ), 6)])))[4 * 0 + 3]?
      ≠ some (getChannel 0 ((5 : ℤ), 6)) := by decide

/-- **C3** amended.  The sample emitted at per-channel output index `4*k + 3`
is sample `k` of the *working sequence* (the carry frame prepended to the
chunk): index 3 carries the previous chunk's last frame (zero at stream
start), and the chunk's own sample `k` appears at index `4*(k+1) + 3`, its
last sample being deferred to the next chunk via the carry. -/
theorem pass_through_aligned {α : Type} [Zero α] (lib : SplineLib α)
    (s : AudioInterpolator α) (chunk : List (α × α)) (out : List α)
    (s1 : AudioInterpolator α) (hm : s.method ∈ recognizedMethods)
    (h : interpolate_chunk lib s chunk = Except.ok (out, s1))
    (c : Fin 2) (k : Nat) (hk : k < chunk.length) :
    (deinterleave c out)[4 * k + 3]?
      = ((s.chunk_end_sample :: chunk)[k]?).map (getChannel c) := by
  obtain ⟨out0, s0, hok, hlen0, hchan0, hidx⟩ :=
    interpolate_chunk_spec lib s chunk hm
  rw [hok] at h
  simp only [Except.ok.injEq, Prod.mk.injEq] at h
  obtain ⟨ho, hs⟩ := h
  subst ho
  rw [hidx c k]
  have hz := zip_getElem?_fst (s.chunk_end_sample :: chunk) chunk k
    (by simp; omega) hk
  rw [← hz, Option.map_map]
  rfl

/-- Witness for `pass_through_aligned`: fresh `"repeat"` engine, chunk
`[(5, 6)]`, channel 0, `k = 0`: output index 3 holds the (zero) carry. -/
theorem pass_through_aligned_witness :
    (deinterleave (0 : Fin 2) [(0 : ℤ), 0, 0, 0, 0, 0, 0, 0])[4 * 0 + 3]?
      = (((AudioInterpolator.init "repeat" :
            AudioInterpolator ℤ).chunk_end_sample
          :: [((5 : ℤ), 6)])[0]?).map (getChannel 0) :=
  pass_through_aligned probeLib (AudioInterpolator.init "repeat")
    [((5 : ℤ), 6)] [0, 0, 0, 0, 0, 0, 0, 0]
    ⟨List.replicate 9 (0, 0), ((5 : ℤ), 6), "repeat"⟩
    (by decide) rfl 0 0 (by decide)

/-- **C4** counterexample.  Constructing an engine with the unrecognized
selector `"bogus"` does NOT fail: `__init__` stores the selector without
validation, and the `ValueError` surfaces only later, inside
`interpolate_chunk`, contradicting the claim that detection happens at
construction rather than during `interpolate_chunk`. -/
theorem lazy_method_check_cex :
    (AudioInterpolator.init "bogus" : AudioInterpolator ℤ).method = "bogus" ∧
    interpolate_chunk probeLib (AudioInterpolator.init "bogus") [((1 : ℤ), 2)]
      = Except.error ("Unknown interpolation method: " ++ "bogus") :=
  ⟨rfl, rfl⟩

/-- **C4** amended.  Construction always succeeds and merely stores the
selector; an unrecognized selector makes every non-empty `interpolate_chunk`
call raise `ValueError` at its first frame pair, with no silent fallback,
while every recognized selector makes `interpolate_chunk` total. -/
theorem invalid_method_lazy {α : Type} [Zero α] (lib : SplineLib α)
    (s : AudioInterpolator α) (chunk : List (α × α)) (hne : chunk ≠ []) :
    (s.method ∉ recognizedMethods →
      interpolate_chunk lib s chunk
        = Except.error ("Unknown interpolation method: " ++ s.method)) ∧
    (s.method ∈ recognizedMethods →
      ∃ out s1, interpolate_chunk lib s chunk = Except.ok (out, s1)) := by
  constructor
  · intro hm
    cases chunk with
    | nil => exact absurd rfl hne
    | cons f fs =>
      simp only [interpolate_chunk, List.tail_cons, List.zip_cons_cons]
      rw [channelLoop_error lib hm]
  · intro hm
    obtain ⟨out, s1, hok, hrest⟩ := interpolate_chunk_spec lib s chunk hm
    exact ⟨out, s1, hok⟩

/-- Witness for `invalid_method_lazy`: selector `"bogus"`, chunk `[(1, 2)]`. -/
theorem invalid_method_lazy_witness :
    ((AudioInterpolator.init "bogus" :
        AudioInterpolator ℤ).method ∉ recognizedMethods →
      interpolate_chunk probeLib (AudioInterpolator.init "bogus") [((1 : ℤ), 2)]
        = Except.error ("Unknown interpolation method: "
            ++ (AudioInterpolator.init "bogus" :
                  AudioInterpolator ℤ).method)) ∧
    ((AudioInterpolator.init "bogus" :
        AudioInterpolator ℤ).method ∈ recognizedMethods →
      ∃ out s1, interpolate_chunk probeLib (AudioInterpolator.init "bogus")
          [((1 : ℤ), 2)] = Except.ok (out, s1)) :=
  invalid_method_lazy probeLib (AudioInterpolator.init "bogus") [((1 : ℤ), 2)]
    (List.cons_ne_nil _ _)

/-- **C5**.  With method `"repeat"` the result does not depend on the spline
library at all (the hold branch short-circuits before any spline
construction), and each per-channel output is exactly the working-sequence
samples (all but the last, i.e. the earlier element of each consecutive
pair), each repeated 4 times with no numeric change. -/
theorem hold_method_exact {α : Type} [Zero α] (lib lib2 : SplineLib α)
    (s : AudioInterpolator α) (chunk : List (α × α))
    (hm : s.method = "repeat") :
    interpolate_chunk lib s chunk = interpolate_chunk lib2 s chunk ∧
    ∃ s1, interpolate_chunk lib s chunk
      = Except.ok
          (interleave (holdColumn 0 (s.chunk_end_sample :: chunk))
                      (holdColumn 1 (s.chunk_end_sample :: chunk)), s1) := by
  cases chunk with
  | nil => exact ⟨rfl, s, rfl⟩
  | cons f fs =>
    constructor
    · simp only [interpolate_chunk, List.tail_cons, hm, channelLoop_repeat]
    · refine ⟨{ s with
          previous_samples :=
            repeatAdvance 1 ((s.chunk_end_sample :: f :: fs).zip (f :: fs))
              (repeatAdvance 0 ((s.chunk_end_sample :: f :: fs).zip (f :: fs))
                s.previous_samples),
          chunk_end_sample := (f :: fs).getLast (List.cons_ne_nil f fs) }, ?_⟩
      simp only [interpolate_chunk, List.tail_cons, hm, channelLoop_repeat]
      rw [← holdColumn_eq 0 s.chunk_end_sample (f :: fs),
        ← holdColumn_eq 1 s.chunk_end_sample (f :: fs)]

/-- Witness for `hold_method_exact`: fresh `"repeat"` engine, chunk
`[(1, 2)]`. -/
theorem hold_method_exact_witness :
    interpolate_chunk probeLib (AudioInterpolator.init "repeat") [((1 : ℤ), 2)]
      = interpolate_chunk probeLib (AudioInterpolator.init "repeat")
          [((1 : ℤ), 2)] ∧
    ∃ s1, interpolate_chunk probeLib (AudioInterpolator.init "repeat")
        [((1 : ℤ), 2)]
      = Except.ok
          (interleave
            (holdColumn 0 ((AudioInterpolator.init "repeat" :
                AudioInterpolator ℤ).chunk_end_sample :: [((1 : ℤ), 2)]))
            (holdColumn 1 ((AudioInterpolator.init "repeat" :
                AudioInterpolator ℤ).chunk_end_sample :: [((1 : ℤ), 2)])),
            s1) :=
  hold_method_exact probeLib probeLib (AudioInterpolator.init "repeat")
    [((1 : ℤ), 2)] rfl

/-- **C6**.  For every recognized method and every state, a chunk of `n`
frames yields exactly `8 * n` interleaved output samples, `4 * n` per
channel. -/
theorem output_length_quadruple {α : Type} [Zero α] (lib : SplineLib α)
    (s : AudioInterpolator α) (chunk : List (α × α))
    (hm : s.method ∈ recognizedMethods) :
    ∃ out s1, interpolate_chunk lib s chunk = Except.ok (out, s1)
      ∧ out.length = 8 * chunk.length
      ∧ ∀ c : Fin 2, (deinterleave c out).length = 4 * chunk.length := by
  obtain ⟨out, s1, hok, hlen, hchan, hidx⟩ :=
    interpolate_chunk_spec lib s chunk hm
  exact ⟨out, s1, hok, hlen, hchan⟩

/-- Witness for `output_length_quadruple`: `"repeat"` engine, one frame in,
8 interleaved samples out. -/
theorem output_length_quadruple_witness :
    ∃ out s1, interpolate_chunk probeLib (AudioInterpolator.init "repeat")
        [((1 : ℤ), 2)] = Except.ok (out, s1)
      ∧ out.length = 8 * [((1 : ℤ), 2)].length
      ∧ ∀ c : Fin 2, (deinterleave c out).length = 4 * [((1 : ℤ), 2)].length :=
  output_length_quadruple probeLib (AudioInterpolator.init "repeat")
    [((1 : ℤ), 2)] (by decide)

/-- **C7**.  An empty input chunk returns an empty output, raises nothing,
and leaves the whole engine state (history window, carry and method)
untouched — for every state, hence for every method string. -/
theorem empty_chunk_noop {α : Type} [Zero α] (lib : SplineLib α)
    (s : AudioInterpolator α) :
    interpolate_chunk lib s ([] : List (α × α)) = Except.ok ([], s) := rfl

/-- **C8**.  The carry frame is zero on a freshly constructed engine, and
after every successful non-empty `interpolate_chunk` call it equals the last
frame consumed in that chunk — the final frame of the working sequence
`carry :: chunk`, which for a non-empty chunk is the chunk's last frame. -/
theorem carry_sample_invariant {α : Type} [Zero α] (m : String)
    (lib : SplineLib α) (s : AudioInterpolator α) (chunk : List (α × α))
    (hne : chunk ≠ []) (out : List α) (s1 : AudioInterpolator α)
    (h : interpolate_chunk lib s chunk = Except.ok (out, s1)) :
    (AudioInterpolator.init m : AudioInterpolator α).chunk_end_sample = (0, 0)
      ∧ s1.chunk_end_sample = chunk.getLast hne := by
  refine ⟨rfl, ?_⟩
  cases chunk with
  | nil => exact absurd rfl hne
  | cons f fs => exact (interpolate_chunk_ok_state h).1

/-- Witness for `carry_sample_invariant`: fresh `"repeat"` engine, chunk
`[(1, 2)]`; the carry afterwards is `(1, 2)`. -/
theorem carry_sample_invariant_witness :
    (AudioInterpolator.init "cubic" :
        AudioInterpolator ℤ).chunk_end_sample = (0, 0) ∧
    (⟨List.replicate 9 (0, 0), ((1 : ℤ), 2), "repeat"⟩ :
        AudioInterpolator ℤ).chunk_end_sample
      = [((1 : ℤ), 2)].getLast (List.cons_ne_nil _ _) :=
  carry_sample_invariant "cubic" probeLib (AudioInterpolator.init "repeat")
    [((1 : ℤ), 2)] (List.cons_ne_nil _ _) [0, 0, 0, 0, 0, 0, 0, 0]
    ⟨List.replicate 9 (0, 0), ((1 : ℤ), 2), "repeat"⟩ rfl

/-- **C9**.  `reset()` followed by zeroing the carry puts the engine in
exactly the freshly-constructed state for its method, so any stream of
chunks processed from there produces identical results. -/
theorem reset_equiv_fresh {α : Type} [Zero α] (lib : SplineLib α)
    (s : AudioInterpolator α) (chunks : List (List (α × α))) :
    runChunks lib { s.reset with chunk_end_sample := (0, 0) } chunks
      = runChunks lib (AudioInterpolator.init s.method) chunks := rfl

/-- **C10**.  `reset()` zero-fills only the 9-slot history window and leaves
the carry (and method) unchanged; consequently, after a successful non-empty
chunk whose last frame is non-zero, `reset()` alone does not restore the
freshly-constructed state. -/
theorem reset_keeps_carry {α : Type} [Zero α] (lib : SplineLib α)
    (t s : AudioInterpolator α) (chunk : List (α × α)) (out : List α)
    (s1 : AudioInterpolator α) (hne : chunk ≠ [])
    (h : interpolate_chunk lib s chunk = Except.ok (out, s1))
    (hlast : chunk.getLast hne ≠ ((0, 0) : α × α)) :
    t.reset.chunk_end_sample = t.chunk_end_sample ∧
    t.reset.method = t.method ∧
    t.reset.previous_samples = List.replicate 9 ((0, 0) : α × α) ∧
    s1.reset ≠ AudioInterpolator.init s1.method := by
  refine ⟨rfl, rfl, rfl, ?_⟩
  intro heq
  apply hlast
  have hc : s1.chunk_end_sample = chunk.getLast hne := by
    cases chunk with
    | nil => exact absurd rfl hne
    | cons f fs => exact (interpolate_chunk_ok_state h).1
  have h0 : s1.reset.chunk_end_sample
      = (AudioInterpolator.init s1.method :
          AudioInterpolator α).chunk_end_sample :=
    congrArg AudioInterpolator.chunk_end_sample heq
  rw [← hc]
  exact h0

/-- Witness for `reset_keeps_carry`: after the `"repeat"` engine consumes
`[(1, 2)]`, its carry is `(1, 2) ≠ (0, 0)`, so `reset` does not reach the
fresh state. -/
theorem reset_keeps_carry_witness :
    (AudioInterpolator.init "cubic" :
        AudioInterpolator ℤ).reset.chunk_end_sample
      = (AudioInterpolator.init "cubic" :
          AudioInterpolator ℤ).chunk_end_sample ∧
    (AudioInterpolator.init "cubic" : AudioInterpolator ℤ).reset.method
      = (AudioInterpolator.init "cubic" : AudioInterpolator ℤ).method ∧
    (AudioInterpolator.init "cubic" :
        AudioInterpolator ℤ).reset.previous_samples
      = List.replicate 9 (((0 : ℤ), (0 : ℤ))) ∧
    (⟨List.replicate 9 (0, 0), ((1 : ℤ), 2), "repeat"⟩ :
        AudioInterpolator ℤ).reset
      ≠ AudioInterpolator.init
          (⟨List.replicate 9 (0, 0), ((1 : ℤ), 2), "repeat"⟩ :
            AudioInterpolator ℤ).method :=
  reset_keeps_carry probeLib (AudioInterpolator.init "cubic")
    (AudioInterpolator.init "repeat") [((1 : ℤ), 2)] [0, 0, 0, 0, 0, 0, 0, 0]
    ⟨List.replicate 9 (0, 0), ((1 : ℤ), 2), "repeat"⟩
    (List.cons_ne_nil _ _) rfl (by decide)

end AudioUpscaler
